import Mathlib

/-!
Verification development for the DiabloHelper automation engine.

The definitions below are a shallow embedding of the Python sources:
- `service/key_sender/timed_key_sender.py` (timed-key scheduler thread),
- `ui/tabs/smart_key_tab.py` (visual state monitor pipeline),
- `ui/tabs/timed_key_tab.py` and `main_window.py` (toggle / reset hotkey glue).

Times and pixel statistics are modelled over `ℚ` (the Python code uses
floats produced by `time.monotonic()` and OpenCV means); machine ints
are modelled over `ℤ`/`ℕ`.  Timing claims are settled in the idealised
timing model in which `time.sleep` is exact and non-sleeping statements
take no time.
-/

namespace DiabloHelper

/-- Character-list prefix test, used for Python's `in` substring operator. -/
def isPre : List Char → List Char → Bool
  | [], _ => true
  | _ :: _, [] => false
  | a :: as, b :: bs => a == b && isPre as bs

/-- Python `needle in hay` on strings: some suffix of `hay` starts with `needle`. -/
def hasSub (needle : List Char) : List Char → Bool
  | [] => isPre needle []
  | c :: rest => isPre needle (c :: rest) || hasSub needle rest

/-- Drop leading whitespace characters from a character list. -/
def dropLeadingWS : List Char → List Char
  | [] => []
  | c :: rest => if c.isWhitespace then dropLeadingWS rest else c :: rest

/-- Python `str.strip()`: remove whitespace from both ends. -/
def pyStrip (s : String) : String :=
  { data := (dropLeadingWS (dropLeadingWS s.data).reverse).reverse }

/-- Embedding of `KeyConfig` from `timed_key_sender.py`. -/
structure KeyConfig where
  hotkey : String
  enabled : Bool
  interval : ℚ
  description : String
deriving DecidableEq, Repr

/-- Embedding of `get_hwnd_by_title`: enumerate `(hwnd, title)` pairs, first
an exact title match, then a substring ("contains") match. -/
def get_hwnd_by_title (windows : List (ℕ × String)) (target : String) : Option ℕ :=
  match windows.find? (fun p => p.2 == target) with
  | some p => some p.1
  | none =>
    match windows.find? (fun p => hasSub target.data p.2.data) with
    | some p => some p.1
    | none => none

/-- Embedding of the enabled-configuration filter in `TimedKeySenderThread.run`:
`c.enabled and c.interval and c.interval > 0` (Python truthiness makes the
middle conjunct `interval ≠ 0`). -/
def enabledConfigs (cfgs : List KeyConfig) : List KeyConfig :=
  cfgs.filter (fun c => c.enabled && !(c.interval == 0) && decide (0 < c.interval))

/-- Python-dict lookup on an association list. -/
def dictGet? {K V : Type} [DecidableEq K] : List (K × V) → K → Option V
  | [], _ => none
  | p :: rest, k => if p.1 = k then some p.2 else dictGet? rest k

/-- Python-dict assignment `d[k] = v`: update in place when the key exists,
append at the end otherwise (insertion order is preserved). -/
def dictSet {K V : Type} [DecidableEq K] : List (K × V) → K → V → List (K × V)
  | [], k, v => [(k, v)]
  | p :: rest, k, v =>
    if p.1 = k then (k, v) :: rest else p :: dictSet rest k v

/-- Key list of an association list (Python `dict.keys()`). -/
def dictKeys {K V : Type} (d : List (K × V)) : List K := d.map (·.1)

/-- Retry policy of `send_key_to_hwnd`: each injector call posts the key
`KEY_SEND_REPEAT_TIMES` times with `KEY_SEND_REPEAT_INTERVAL_SECONDS`
between successive attempts (no sleep after the last). -/
def KEY_SEND_REPEAT_TIMES : ℕ := 3

/-- Fixed delay between the injector's repeat attempts (0.2 s). -/
def KEY_SEND_REPEAT_INTERVAL_SECONDS : ℚ := 1 / 5

/-- Wall-clock span of one default injector call under exact sleeps:
`(repeats - 1) * repeat interval` (the posts themselves take no time). -/
def sendDuration : ℚ :=
  ((KEY_SEND_REPEAT_TIMES - 1 : ℕ) : ℚ) * KEY_SEND_REPEAT_INTERVAL_SECONDS

/-- One record of a key injected by the scheduler: the moment the injector
call starts posting, the moment `time.monotonic()` is read after the call
returns, and the next-due time stored for that key. -/
structure SendEvent where
  hotkey : String
  postTime : ℚ
  sendTime : ℚ
  nextDue : ℚ
deriving DecidableEq, Repr

/-- Result of the scheduler thread's startup phase (`run` up to the start of
the main polling loop). -/
structure RunResult where
  sends : List SendEvent
  nextRun : List (String × ℚ)
  finishedCount : ℕ
deriving DecidableEq, Repr

/-- Stagger loop of `TimedKeySenderThread.run` under exact sleeps: the
`idx`-th enabled key (1-based) waits until `base + idx * 0.02` (or proceeds
at once when that moment has already passed), the injector call then spans
`sendDuration`, `send_time` is read when it returns, and the key's next-due
time is `send_time + interval`. -/
def staggerLoop (base : ℚ) : ℚ → ℚ → List KeyConfig → List SendEvent
  | _, _, [] => []
  | now, idx, cfg :: rest =>
    let desired := base + idx * (1 / 50 : ℚ)
    let start := max now desired
    let fin := start + sendDuration
    { hotkey := cfg.hotkey, postTime := start, sendTime := fin,
      nextDue := fin + cfg.interval } :: staggerLoop base fin (idx + 1) rest

/-- The full staggered first-send pass, entered at time `base` with the
1-based index counter at 1. -/
def staggerSends (base : ℚ) (enabled : List KeyConfig) : List SendEvent :=
  staggerLoop base base 1 enabled

/-- Embedding of `TimedKeySenderThread.run` from thread start (`t0`) to the
start of the main loop, absent any stop request.  `if not hwnd` in Python is
true both for `None` and for handle `0`.  The fixed settle delay is 2 s and
the stagger step is 20 ms.  One `finished` notification is emitted whenever
`run` returns (QThread semantics), so every exit path counts one. -/
def runStartup (windows : List (ℕ × String)) (title : String)
    (cfgs : List KeyConfig) (t0 : ℚ) : RunResult :=
  match get_hwnd_by_title windows title with
  | none => { sends := [], nextRun := [], finishedCount := 1 }
  | some h =>
    if h = 0 then { sends := [], nextRun := [], finishedCount := 1 }
    else
      let enabled := enabledConfigs cfgs
      if enabled = [] then { sends := [], nextRun := [], finishedCount := 1 }
      else
        let base := t0 + 2
        let sends := staggerSends base enabled
        { sends := sends
          nextRun := sends.foldl (fun nr e => dictSet nr e.hotkey e.nextDue) []
          finishedCount := 1 }

/-- Embedding of `TimedKeySenderThread.request_next_due_in`: trim the hotkey,
drop the request when the trimmed key is empty, clamp non-positive `seconds`
to zero, and store the absolute due time `now + seconds` into the pending
override dict (overwriting any unconsumed request for the same key). -/
def request_next_due_in (ov : List (String × ℚ)) (now : ℚ) (hotkey : String)
    (seconds : ℚ) : List (String × ℚ) :=
  let hk := pyStrip hotkey
  if hk = "" then ov
  else
    let s := if seconds ≤ 0 then (0 : ℚ) else seconds
    dictSet ov hk (now + s)

/-- Drain step of the scheduler's main loop: for each pending override, apply
it only when its key is already tracked in `next_run`; otherwise the request
is silently discarded. -/
def applyOverrides (next_run : List (String × ℚ)) (ovs : List (String × ℚ)) :
    List (String × ℚ) :=
  ovs.foldl
    (fun nr kv => if (dictGet? nr kv.1).isSome then dictSet nr kv.1 kv.2 else nr)
    next_run

/-- Due-key phase of one main-loop tick: every enabled config whose due time
has passed `now` is sent and rescheduled to `now + interval`.  A key missing
from the table defaults its due time to `now` (Python `dict.get(k, now)`). -/
def processDue (next_run : List (String × ℚ)) (now : ℚ)
    (enabled : List KeyConfig) : List (String × ℚ) × List String :=
  enabled.foldl
    (fun acc cfg =>
      let due := (dictGet? acc.1 cfg.hotkey).getD now
      if due ≤ now then
        (dictSet acc.1 cfg.hotkey (now + cfg.interval), acc.2 ++ [cfg.hotkey])
      else acc)
    (next_run, [])

/-- State of `TabTimedKey` that `_on_sender_finished` touches. -/
structure TimedTabState where
  key_status : Bool
  remaining_timer_active : Bool
  sender_present : Bool
deriving DecidableEq, Repr

/-- Embedding of `TabTimedKey._on_sender_finished`: discard the thread
reference, stop the remaining-time timer, and clear the running flag. -/
def on_sender_finished (_st : TimedTabState) : TimedTabState :=
  { key_status := false, remaining_timer_active := false, sender_present := false }

/-- Mean of the HSV saturation channel of a region frame
(`hsv[:, :, 1].mean()` in `_monitor_worker_main`); `none` models the worker's
exception path, which leaves `mean_sat = None` on an empty/broken frame. -/
def meanSat : List ℚ → Option ℚ
  | [] => none
  | l => some (l.sum / l.length)

/-- Per-region snapshot row read from the Smart-Key table on the UI thread
(`_get_smart_key_table_snapshot_by_index`). -/
structure RegionCfgSnap where
  send_hotkey : String
  enabled : Bool
deriving DecidableEq, Repr

/-- Hotkey resolution of `_monitor_worker_main`: prefer the (trimmed)
per-region table hotkey, else fall back to the key resolved by index. -/
def resolveHotkey (cfg? : Option RegionCfgSnap) (fallback : Option String) :
    String :=
  let fromCfg := match cfg? with
    | some c => pyStrip c.send_hotkey
    | none => ""
  if fromCfg = "" then pyStrip (fallback.getD "") else fromCfg

/-- Classification and injection decision of `_monitor_worker_main` for one
region: skip when the table snapshot disables it; skip when no hotkey
resolves; otherwise inject the resolved hotkey exactly when the mean HSV
saturation is at least the fixed disable threshold 50. -/
def regionDecision (cfg? : Option RegionCfgSnap) (fallback : Option String)
    (satPixels : List ℚ) : Option String :=
  if (match cfg? with | some c => !c.enabled | none => false) then none
  else
    let hotkey := resolveHotkey cfg? fallback
    if hotkey = "" then none
    else
      match meanSat satPixels with
      | none => none
      | some m => if 50 ≤ m then some hotkey else none

/-- Python 3 `int(round(x))` on an exact rational: round half to even. -/
def pyRound (q : ℚ) : ℤ :=
  let f := ⌊q⌋
  let frac := q - f
  if frac < 1 / 2 then f
  else if 1 / 2 < frac then f + 1
  else if f % 2 = 0 then f else f + 1

/-- A configured skill region in reference-resolution coordinates
(`SkillArea` rows consumed by `_cut_skill_areas_from_image`). -/
structure SkillArea where
  index : ℕ
  x : ℤ
  y : ℤ
  width : ℤ
  height : ℤ
deriving DecidableEq, Repr

/-- The clamped extraction rectangle passed to `QImage.copy`. -/
structure CutRect where
  x : ℤ
  y : ℤ
  w : ℤ
  h : ℤ
deriving DecidableEq, Repr

/-- Clamp step of `_cut_skill_areas_from_image`: clamp the (already scaled)
rectangle `(x0, y0, w0, h0)` to the image bounds and skip the region when
the clamped area is empty. -/
def clampRect (imgW imgH x0 y0 w0 h0 : ℤ) : Option CutRect :=
  let x := max 0 x0
  let y := max 0 y0
  let x2 := min imgW (x + w0)
  let y2 := min imgH (y + h0)
  let w2 := max 0 (x2 - x)
  let h2 := max 0 (y2 - y)
  if w2 ≤ 0 ∨ h2 ≤ 0 then none
  else some { x := x, y := y, w := w2, h := h2 }

/-- Scale-then-clamp of one region in `_cut_skill_areas_from_image`: scale by
`img / ref` when a reference resolution is configured and truthy (nonzero),
round each coordinate, then clamp to the image bounds. -/
def cutOne (imgW imgH : ℤ) (ref? : Option (ℤ × ℤ)) (area : SkillArea) :
    Option CutRect :=
  match ref? with
  | some (rw, rh) =>
    if rw ≠ 0 ∧ rh ≠ 0 then
      clampRect imgW imgH
        (pyRound ((area.x : ℚ) * ((imgW : ℚ) / (rw : ℚ))))
        (pyRound ((area.y : ℚ) * ((imgH : ℚ) / (rh : ℚ))))
        (pyRound ((area.width : ℚ) * ((imgW : ℚ) / (rw : ℚ))))
        (pyRound ((area.height : ℚ) * ((imgH : ℚ) / (rh : ℚ))))
    else clampRect imgW imgH area.x area.y area.width area.height
  | none => clampRect imgW imgH area.x area.y area.width area.height

/-- Per-area step of the extraction fold: a skipped region leaves the output
dict untouched, a surviving one writes its rectangle under the region
index. -/
def cutStep (imgW imgH : ℤ) (ref? : Option (ℤ × ℤ))
    (out : List (ℕ × CutRect)) (area : SkillArea) : List (ℕ × CutRect) :=
  match cutOne imgW imgH ref? area with
  | none => out
  | some r => dictSet out area.index r

/-- Embedding of `_cut_skill_areas_from_image`: at most `max_count = 6` areas
are considered; each surviving region writes its rectangle into the output
dict keyed by region index. -/
def cutSkillAreas (imgW imgH : ℤ) (ref? : Option (ℤ × ℤ))
    (areas : List SkillArea) : List (ℕ × CutRect) :=
  (areas.take 6).foldl (cutStep imgW imgH ref?) []

/-- Events on the monitor's cross-stage channel: the producer tick publishes
a fresh package (`_on_monitor_timer_tick`: drain-then-put on the maxsize-1
queue), the consumer takes whatever is in the slot (`q.get(timeout=0.2)`). -/
inductive ChanEvent (α : Type) where
  | publish (a : α)
  | consume
deriving DecidableEq, Repr

/-- Slot contents after running a sequence of channel events: a publish
discards any unconsumed package before storing the new one, a consume
empties the slot. -/
def slotAfter {α : Type} (slot : Option α) : List (ChanEvent α) → Option α
  | [] => slot
  | ChanEvent.publish a :: evs => slotAfter (some a) evs
  | ChanEvent.consume :: evs => slotAfter none evs

/-- The most recently published package in an event sequence (the rightmost
publish), ignoring consumes. -/
def lastPublished {α : Type} : List (ChanEvent α) → Option α
  | [] => none
  | ChanEvent.publish a :: evs => some ((lastPublished evs).getD a)
  | ChanEvent.consume :: evs => lastPublished evs

/-- Abstract state of the running monitor: the Qt capture timer, the stop
event, the worker thread, the single-slot queue (`some none` is the `None`
sentinel), and counters of captures and injections performed so far. -/
structure MonState where
  timerActive : Bool
  stopSet : Bool
  workerAlive : Bool
  chan : Option (Option ℕ)
  captures : ℕ
  injections : ℕ
deriving DecidableEq, Repr

/-- One firing of `_on_monitor_timer_tick`: nothing happens unless the timer
is active, and the handler returns before capturing when the stop event is
set; otherwise it captures the screen and publishes a package
(drain-then-put). -/
def monitorTick (s : MonState) : MonState :=
  if s.timerActive = false then s
  else if s.stopSet then s
  else { s with captures := s.captures + 1, chan := some (some s.captures) }

/-- One iteration of `_monitor_worker_main`'s loop: a dead worker does
nothing; the loop condition exits when the stop event is set; an empty queue
times out and continues; the `None` sentinel is skipped; a real package is
consumed and (at most) injects. -/
def workerStep (s : MonState) : MonState :=
  if s.workerAlive = false then s
  else if s.stopSet then { s with workerAlive := false }
  else
    match s.chan with
    | none => s
    | some none => { s with chan := none }
    | some (some _) => { s with chan := none, injections := s.injections + 1 }

/-- The stop branch of `on_checkbox_start_monitor_changed`: stop the capture
timer, set the stop event, put the `None` sentinel when the slot is free
(`put_nowait` on a full queue raises and is swallowed), and join the
worker. -/
def stopMonitor (s : MonState) : MonState :=
  let s1 := { s with timerActive := false }
  let s2 := { s1 with stopSet := true }
  let s3 := { s2 with chan := if s2.chan = none then some none else s2.chan }
  { s3 with workerAlive := false }

/-- Post-stop scheduling: any interleaving of timer firings and worker loop
iterations. -/
inductive MonEvent where
  | tick
  | worker
deriving DecidableEq, Repr

/-- Run a sequence of monitor events from a state. -/
def runMon (s : MonState) : List MonEvent → MonState
  | [] => s
  | MonEvent.tick :: evs => runMon (monitorTick s) evs
  | MonEvent.worker :: evs => runMon (workerStep s) evs

/-- Which tab is currently active in the main window's tab widget. -/
inductive ActiveTab where
  | timedKey
  | smartKey
  | other
deriving DecidableEq, Repr

/-- The main-window state the hotkey toggle handler touches: whether each of
the two surfaces is open and whether its run is active. -/
structure MainWinState where
  timedOpen : Bool
  timedRunning : Bool
  smartOpen : Bool
  smartRunning : Bool
deriving DecidableEq, Repr

/-- Closing the Smart-Key tab (`on_close_tab`): stops the monitor via
`stop_monitor_from_external` and removes the tab; nothing happens when the
tab is not open. -/
def closeSmartTab (m : MainWinState) : MainWinState :=
  if m.smartOpen then { m with smartOpen := false, smartRunning := false } else m

/-- Closing the Timed-Key tab (`on_close_tab`): stops the sender thread via
`_stop_sender_thread` and removes the tab; nothing happens when the tab is
not open. -/
def closeTimedTab (m : MainWinState) : MainWinState :=
  if m.timedOpen then { m with timedOpen := false, timedRunning := false } else m

/-- Embedding of `_close_other_tab_for_mutex`: with the Timed-Key tab active
close the Smart-Key tab, with the Smart-Key tab active close the Timed-Key
tab, otherwise do nothing. -/
def closeOtherTabForMutex (m : MainWinState) (active : ActiveTab) :
    MainWinState :=
  match active with
  | ActiveTab.timedKey => closeSmartTab m
  | ActiveTab.smartKey => closeTimedTab m
  | ActiveTab.other => m

/-- Embedding of `_toggle_key_feature_from_hotkey`: close the other surface
first, then toggle the active surface's own run (`on_start_clicked` /
`toggle_monitor_from_external`); with neither surface active, do nothing. -/
def toggleKeyFeatureFromHotkey (m : MainWinState) (active : ActiveTab) :
    MainWinState :=
  let m1 := closeOtherTabForMutex m active
  match active with
  | ActiveTab.smartKey => { m1 with smartRunning := !m1.smartRunning }
  | ActiveTab.timedKey => { m1 with timedRunning := !m1.timedRunning }
  | ActiveTab.other => m1

/-- State touched by the per-key reset hotkey: whether the Timed-Key tab is
open, and the scheduler thread's pending-override dict. -/
structure ResetContext where
  timedTabOpen : Bool
  overrides : List (String × ℚ)
deriving DecidableEq, Repr

/-- Modelled from the spec: `TabTimedKey.trigger_reset_by_hotkey` is invoked
from `main_window.py` but its body is not among the sources; per the spec it
forwards a RescheduleRequest for the bound key with
`seconds_from_now = 1.0`, i.e. `request_next_due_in(hotkey, 1.0)`. -/
def trigger_reset_by_hotkey (ov : List (String × ℚ)) (now : ℚ)
    (hotkey : String) : List (String × ℚ) :=
  request_next_due_in ov now hotkey 1

/-- Embedding of `DiabloClickerMainWindow._reset_single_skill_from_hotkey`:
a no-op when the Timed-Key tab is absent, otherwise forward to the tab's
reset path. -/
def reset_single_skill_from_hotkey (ctx : ResetContext) (now : ℚ)
    (hotkey : String) : ResetContext :=
  if ctx.timedTabOpen = false then ctx
  else { ctx with overrides := trigger_reset_by_hotkey ctx.overrides now hotkey }

/-! ### Association-list (Python dict) lemmas -/

theorem dictGet?_dictSet_self {K V : Type} [DecidableEq K]
    (d : List (K × V)) (k : K) (v : V) :
    dictGet? (dictSet d k v) k = some v := by
  induction d with
  | nil => simp [dictGet?, dictSet]
  | cons p rest ih =>
    by_cases hp : p.1 = k
    · simp [dictGet?, dictSet, hp]
    · simp [dictGet?, dictSet, hp, ih]

theorem dictKeys_cons {K V : Type} (p : K × V) (rest : List (K × V)) :
    dictKeys (p :: rest) = p.1 :: dictKeys rest := rfl

theorem mem_dictKeys_cons {K V : Type} (p : K × V) (rest : List (K × V))
    (k : K) : k ∈ dictKeys (p :: rest) ↔ k = p.1 ∨ k ∈ dictKeys rest := by
  simp [dictKeys]

theorem dictGet?_dictSet_other {K V : Type} [DecidableEq K]
    (d : List (K × V)) (k k' : K) (v : V) (hne : k' ≠ k) :
    dictGet? (dictSet d k v) k' = dictGet? d k' := by
  induction d with
  | nil => simp [dictGet?, dictSet, hne.symm]
  | cons p rest ih =>
    by_cases hp : p.1 = k
    · simp [dictGet?, dictSet, hp, hne.symm]
    · by_cases hq : p.1 = k'
      · simp [dictGet?, dictSet, hp, hq, hne]
      · simp [dictGet?, dictSet, hp, hq, ih]

theorem dictKeys_dictSet_of_mem {K V : Type} [DecidableEq K]
    (d : List (K × V)) (k : K) (v : V) :
    k ∈ dictKeys d → dictKeys (dictSet d k v) = dictKeys d := by
  induction d with
  | nil => intro h; simp [dictKeys] at h
  | cons p rest ih =>
    intro h
    by_cases hp : p.1 = k
    · simp [dictKeys, dictSet, hp]
    · have h' : k ∈ dictKeys rest := by
        rcases (mem_dictKeys_cons p rest k).mp h with h0 | h0
        · exact absurd h0.symm hp
        · exact h0
      simp only [dictSet, hp, if_false, dictKeys_cons]
      rw [ih h']

theorem dictGet?_isSome_iff_mem {K V : Type} [DecidableEq K]
    (d : List (K × V)) (k : K) :
    (dictGet? d k).isSome = true ↔ k ∈ dictKeys d := by
  induction d with
  | nil => simp [dictGet?, dictKeys]
  | cons p rest ih =>
    rw [mem_dictKeys_cons]
    by_cases hp : p.1 = k
    · simp [dictGet?, hp]
    · have : ¬k = p.1 := fun h0 => hp h0.symm
      simp [dictGet?, hp, this, ih]

theorem mem_dictSet {K V : Type} [DecidableEq K]
    (d : List (K × V)) (k : K) (v : V) (q : K × V)
    (hmem : q ∈ dictSet d k v) : q ∈ d ∨ q = (k, v) := by
  induction d with
  | nil =>
    simp [dictSet] at hmem
    simp [hmem]
  | cons p rest ih =>
    by_cases hp : p.1 = k
    · simp [dictSet, hp] at hmem
      rcases hmem with h | h
      · right; simp [h]
      · left; simp [h]
    · simp only [dictSet, hp, if_false, List.mem_cons] at hmem
      rcases hmem with h | h
      · left; simp [h]
      · rcases ih h with h' | h'
        · left; simp [h']
        · right; exact h'

theorem clamp_nonpos_eq_max (t : ℚ) : (if t ≤ 0 then (0 : ℚ) else t) = max t 0 := by
  rcases le_or_lt t 0 with h | h
  · simp [h, max_eq_right h]
  · simp [not_le.mpr h, max_eq_left h.le]

/-- C3: `request_next_due_in(k, s)` with a non-empty trimmed key stores the
absolute due time `now + max(s, 0)` (negative `s` clamped to zero), and a
second request for the same key issued before the scheduler drains the
pending dict overwrites the first, so only the second takes effect. -/
theorem reschedule_clamps_and_last_write_wins
    (ov : List (String × ℚ)) (now now2 : ℚ) (hotkey : String) (s s2 : ℚ)
    (hk : pyStrip hotkey ≠ "") :
    dictGet? (request_next_due_in ov now hotkey s) (pyStrip hotkey)
      = some (now + max s 0) ∧
    dictGet? (request_next_due_in
        (request_next_due_in ov now hotkey s) now2 hotkey s2) (pyStrip hotkey)
      = some (now2 + max s2 0) := by
  constructor
  · simp [request_next_due_in, hk, clamp_nonpos_eq_max, dictGet?_dictSet_self]
  · simp [request_next_due_in, hk, clamp_nonpos_eq_max, dictGet?_dictSet_self]

/-- Witness for C3 at key `"1"`, a negative first request and a second
request that overwrites it. -/
theorem reschedule_clamps_and_last_write_wins_witness :
    dictGet? (request_next_due_in [] (10 : ℚ) "1" (-5)) (pyStrip "1")
      = some (10 + max (-5) 0) ∧
    dictGet? (request_next_due_in
        (request_next_due_in [] (10 : ℚ) "1" (-5)) 20 "1" 2) (pyStrip "1")
      = some (20 + max 2 0) :=
  reschedule_clamps_and_last_write_wins [] 10 20 "1" (-5) 2 (by decide)

theorem dictKeys_applyOverrides (ovs nr : List (String × ℚ)) :
    dictKeys (applyOverrides nr ovs) = dictKeys nr := by
  induction ovs generalizing nr with
  | nil => rfl
  | cons kv rest ih =>
    have hstep :
        dictKeys (if (dictGet? nr kv.1).isSome then dictSet nr kv.1 kv.2 else nr)
          = dictKeys nr := by
      by_cases hs : (dictGet? nr kv.1).isSome
      · simp only [hs, if_true]
        exact dictKeys_dictSet_of_mem nr kv.1 kv.2
          ((dictGet?_isSome_iff_mem nr kv.1).mp hs)
      · simp [hs]
    calc dictKeys (applyOverrides nr (kv :: rest))
        = dictKeys (applyOverrides
            (if (dictGet? nr kv.1).isSome then dictSet nr kv.1 kv.2 else nr)
            rest) := rfl
      _ = dictKeys nr := by rw [ih]; exact hstep

theorem dictKeys_processDue_fold (enabled : List KeyConfig) (now : ℚ)
    (acc : List (String × ℚ) × List String)
    (hcover : ∀ c ∈ enabled, c.hotkey ∈ dictKeys acc.1) :
    dictKeys (enabled.foldl
      (fun acc cfg =>
        let due := (dictGet? acc.1 cfg.hotkey).getD now
        if due ≤ now then
          (dictSet acc.1 cfg.hotkey (now + cfg.interval), acc.2 ++ [cfg.hotkey])
        else acc)
      acc).1 = dictKeys acc.1 := by
  induction enabled generalizing acc with
  | nil => rfl
  | cons cfg rest ih =>
    have hmem : cfg.hotkey ∈ dictKeys acc.1 := hcover cfg (by simp)
    set acc' := (if (dictGet? acc.1 cfg.hotkey).getD now ≤ now then
        (dictSet acc.1 cfg.hotkey (now + cfg.interval), acc.2 ++ [cfg.hotkey])
      else acc) with hacc'
    have hkeys : dictKeys acc'.1 = dictKeys acc.1 := by
      rw [hacc']
      by_cases hdue : (dictGet? acc.1 cfg.hotkey).getD now ≤ now
      · simp only [hdue, if_true]
        exact dictKeys_dictSet_of_mem acc.1 cfg.hotkey (now + cfg.interval) hmem
      · simp [hdue]
    have hcover' : ∀ c ∈ rest, c.hotkey ∈ dictKeys acc'.1 := by
      intro c hc
      rw [hkeys]
      exact hcover c (by simp [hc])
    calc dictKeys ((cfg :: rest).foldl _ acc).1
        = dictKeys (rest.foldl _ acc').1 := rfl
      _ = dictKeys acc'.1 := ih acc' hcover'
      _ = dictKeys acc.1 := hkeys

/-- C10: draining pending reschedule requests never adds a key to the
due-time table (a request for an untracked key is silently discarded and
leaves the table unchanged), and a full tick (drain followed by due-key
processing over the enabled configs, whose hotkeys the table already
tracks) preserves the table's key set, so it stays the set of keys
installed by the staggered first sends for the rest of the run. -/
theorem drain_never_adds_keys (nr ovs : List (String × ℚ)) (now : ℚ)
    (enabled : List KeyConfig)
    (hcover : ∀ c ∈ enabled, c.hotkey ∈ dictKeys nr) :
    dictKeys (applyOverrides nr ovs) = dictKeys nr ∧
    dictKeys (processDue (applyOverrides nr ovs) now enabled).1 = dictKeys nr ∧
    (∀ k v, k ∉ dictKeys nr → applyOverrides nr [(k, v)] = nr) ∧
    (∀ k, k ∉ dictKeys nr → dictGet? (applyOverrides nr ovs) k = none) := by
  have hkeys := dictKeys_applyOverrides ovs nr
  refine ⟨hkeys, ?_, ?_, ?_⟩
  · have hcover' : ∀ c ∈ enabled, c.hotkey ∈ dictKeys (applyOverrides nr ovs) := by
      intro c hc; rw [hkeys]; exact hcover c hc
    have := dictKeys_processDue_fold enabled now (applyOverrides nr ovs, []) hcover'
    calc dictKeys (processDue (applyOverrides nr ovs) now enabled).1
        = dictKeys (applyOverrides nr ovs) := this
      _ = dictKeys nr := hkeys
  · intro k v hk
    have hnone : (dictGet? nr k).isSome = false := by
      have h1 : ¬(dictGet? nr k).isSome = true := by
        rw [dictGet?_isSome_iff_mem]
        exact hk
      simpa using h1
    simp [applyOverrides, hnone]
  · intro k hk
    have h1 : ¬(dictGet? (applyOverrides nr ovs) k).isSome = true := by
      rw [dictGet?_isSome_iff_mem, hkeys]
      exact hk
    exact Option.not_isSome_iff_eq_none.mp h1

/-- Witness for C10: a table tracking key `"1"`, a pending request for the
untracked key `"2"`, and one enabled config for `"1"`. -/
theorem drain_never_adds_keys_witness :
    dictKeys (applyOverrides [("1", (5 : ℚ))] [("2", 9)]) = dictKeys [("1", (5 : ℚ))] ∧
    dictKeys (processDue (applyOverrides [("1", (5 : ℚ))] [("2", 9)]) 0
        [{ hotkey := "1", enabled := true, interval := 3, description := "d" }]).1
      = dictKeys [("1", (5 : ℚ))] ∧
    (∀ k v, k ∉ dictKeys [("1", (5 : ℚ))] →
      applyOverrides [("1", (5 : ℚ))] [(k, v)] = [("1", (5 : ℚ))]) ∧
    (∀ k, k ∉ dictKeys [("1", (5 : ℚ))] →
      dictGet? (applyOverrides [("1", (5 : ℚ))] [("2", 9)]) k = none) :=
  drain_never_adds_keys [("1", 5)] [("2", 9)] 0
    [{ hotkey := "1", enabled := true, interval := 3, description := "d" }]
    (by intro c hc; simp at hc; simp [hc, dictKeys])

/-- C5: on the toggle hotkey, the other surface is stopped (mutual
exclusion) and the active surface's own run is toggled; when the active tab
is neither surface, nothing is started or stopped.  The hypotheses record
that a surface can only be running while its tab is open. -/
theorem toggle_hotkey_mutual_exclusion (m : MainWinState) (active : ActiveTab)
    (hs : m.smartRunning = true → m.smartOpen = true)
    (ht : m.timedRunning = true → m.timedOpen = true) :
    (active = ActiveTab.timedKey →
      (toggleKeyFeatureFromHotkey m active).smartRunning = false ∧
      (toggleKeyFeatureFromHotkey m active).timedRunning = !m.timedRunning) ∧
    (active = ActiveTab.smartKey →
      (toggleKeyFeatureFromHotkey m active).timedRunning = false ∧
      (toggleKeyFeatureFromHotkey m active).smartRunning = !m.smartRunning) ∧
    (active = ActiveTab.other → toggleKeyFeatureFromHotkey m active = m) ∧
    ¬(active ≠ ActiveTab.other ∧
      (toggleKeyFeatureFromHotkey m active).timedRunning = true ∧
      (toggleKeyFeatureFromHotkey m active).smartRunning = true) := by
  rcases m with ⟨t1, t2, s1, s2⟩
  cases active <;> cases t1 <;> cases t2 <;> cases s1 <;> cases s2 <;>
    simp_all [toggleKeyFeatureFromHotkey, closeOtherTabForMutex,
      closeSmartTab, closeTimedTab]

/-- Witness for C5: both surfaces open and running, the Timed-Key tab
active; the toggle stops the monitor and flips the scheduler off. -/
theorem toggle_hotkey_mutual_exclusion_witness :
    (toggleKeyFeatureFromHotkey
      { timedOpen := true, timedRunning := true,
        smartOpen := true, smartRunning := true }
      ActiveTab.timedKey).smartRunning = false ∧
    (toggleKeyFeatureFromHotkey
      { timedOpen := true, timedRunning := true,
        smartOpen := true, smartRunning := true }
      ActiveTab.timedKey).timedRunning = !true :=
  (toggle_hotkey_mutual_exclusion
    { timedOpen := true, timedRunning := true,
      smartOpen := true, smartRunning := true }
    ActiveTab.timedKey (fun _ => rfl) (fun _ => rfl)).1 rfl

theorem runMon_quiescent (evs : List MonEvent) (s : MonState)
    (ht : s.timerActive = false) (hw : s.workerAlive = false) :
    runMon s evs = s := by
  induction evs with
  | nil => rfl
  | cons e rest ih =>
    cases e with
    | tick =>
      have : monitorTick s = s := by simp [monitorTick, ht]
      simp [runMon, this, ih]
    | worker =>
      have : workerStep s = s := by simp [workerStep, hw]
      simp [runMon, this, ih]

/-- C8: once the stop path of the monitor has returned (timer stopped, stop
event set, sentinel in the channel, worker joined), no interleaving of
further timer firings and worker iterations performs any screen capture or
key injection. -/
theorem monitor_stop_quiescent (s : MonState) (evs : List MonEvent) :
    (runMon (stopMonitor s) evs).captures = s.captures ∧
    (runMon (stopMonitor s) evs).injections = s.injections := by
  rw [runMon_quiescent evs (stopMonitor s) rfl rfl]
  exact ⟨rfl, rfl⟩

theorem slotAfter_lastPublished_aux {α : Type} (evs : List (ChanEvent α)) :
    ∀ (s : Option α) (a : α), slotAfter s evs = some a →
      lastPublished evs = some a ∨ (lastPublished evs = none ∧ s = some a) := by
  induction evs with
  | nil =>
    intro s a h
    exact Or.inr ⟨rfl, h⟩
  | cons e rest ih =>
    intro s a h
    cases e with
    | publish b =>
      rcases ih (some b) a h with h1 | h1
      · left
        simp [lastPublished, h1]
      · left
        have hb : b = a := by
          have := h1.2
          simpa using this
        simp [lastPublished, h1.1, hb]
    | consume =>
      rcases ih none a h with h1 | h1
      · left
        simpa [lastPublished] using h1
      · exact absurd h1.2 (by simp)

/-- C6: the cross-stage channel is a single-slot latest-frame-wins mailbox:
whatever package the consumer can take is the most recently published one
(older unconsumed packages are discarded by the publisher), and the slot
contents after a publish do not depend on what was left unconsumed. -/
theorem channel_latest_frame_wins {α : Type} (evs : List (ChanEvent α)) (a : α)
    (h : slotAfter none evs = some a) :
    lastPublished evs = some a ∧
    ∀ (old old' : Option α) (b : α) (rest : List (ChanEvent α)),
      slotAfter old (ChanEvent.publish b :: rest)
        = slotAfter old' (ChanEvent.publish b :: rest) := by
  constructor
  · rcases slotAfter_lastPublished_aux evs none a h with h1 | h1
    · exact h1
    · exact absurd h1.2 (by simp)
  · intro old old' b rest
    rfl

/-- Witness for C6: two back-to-back publishes with no consume in between;
the slot holds the second one. -/
theorem channel_latest_frame_wins_witness :
    lastPublished [ChanEvent.publish 1, ChanEvent.publish 2] = some 2 ∧
    ∀ (old old' : Option ℕ) (b : ℕ) (rest : List (ChanEvent ℕ)),
      slotAfter old (ChanEvent.publish b :: rest)
        = slotAfter old' (ChanEvent.publish b :: rest) :=
  channel_latest_frame_wins [ChanEvent.publish 1, ChanEvent.publish 2] 2 rfl

/-- C4: when the target window title resolves to no handle, the scheduler
run exits at once with zero key injections and exactly one finished
notification, and the UI's finished handler clears the running state. -/
theorem window_not_found_clean_exit (windows : List (ℕ × String))
    (title : String) (cfgs : List KeyConfig) (t0 : ℚ) (st : TimedTabState)
    (h : get_hwnd_by_title windows title = none) :
    (runStartup windows title cfgs t0).sends = [] ∧
    (runStartup windows title cfgs t0).finishedCount = 1 ∧
    (on_sender_finished st).key_status = false := by
  simp [runStartup, h, on_sender_finished]

/-- Witness for C4: an empty window list resolves no title. -/
theorem window_not_found_clean_exit_witness :
    (runStartup [] "W" [] 0).sends = [] ∧
    (runStartup [] "W" [] 0).finishedCount = 1 ∧
    (on_sender_finished
      { key_status := true, remaining_timer_active := true,
        sender_present := true }).key_status = false :=
  window_not_found_clean_exit [] "W" [] 0
    { key_status := true, remaining_timer_active := true,
      sender_present := true } rfl

theorem sendDuration_eq : sendDuration = 2 / 5 := by
  norm_num [sendDuration, KEY_SEND_REPEAT_TIMES, KEY_SEND_REPEAT_INTERVAL_SECONDS]

/-- Closed form of the stagger loop once the desired instants have fallen
behind real time: every remaining send starts back-to-back, spaced by the
injector call span. -/
theorem staggerLoop_getElem (cfgs : List KeyConfig) :
    ∀ (base now idx : ℚ) (j : ℕ), base + idx * (1 / 50 : ℚ) ≤ now →
      (staggerLoop base now idx cfgs)[j]? = cfgs[j]?.map (fun c =>
        { hotkey := c.hotkey,
          postTime := now + sendDuration * j,
          sendTime := now + sendDuration * j + sendDuration,
          nextDue := now + sendDuration * j + sendDuration + c.interval }) := by
  induction cfgs with
  | nil =>
    intro base now idx j h
    simp [staggerLoop]
  | cons c rest ih =>
    intro base now idx j h
    have hstart : max now (base + idx * (1 / 50 : ℚ)) = now := max_eq_left h
    cases j with
    | zero =>
      simp only [staggerLoop, List.getElem?_cons_zero, Option.map_some']
      rw [hstart, Option.some_inj, SendEvent.mk.injEq]
      norm_num
    | succ jp =>
      have hinv : base + (idx + 1) * (1 / 50 : ℚ) ≤ now + sendDuration := by
        rw [sendDuration_eq]
        linarith
      simp only [staggerLoop, List.getElem?_cons_succ]
      rw [hstart, ih base (now + sendDuration) (idx + 1) jp hinv]
      cases hc : rest[jp]? with
      | none => rfl
      | some cp =>
        show some _ = some _
        rw [Option.some_inj, SendEvent.mk.injEq]
        push_cast
        refine ⟨rfl, by ring, by ring, by ring⟩

/-- Closed form of the whole staggered pass: the `i`-th (0-based) enabled
key starts at `base + 20 ms + i * sendDuration` and is recorded
`sendDuration` later. -/
theorem staggerSends_getElem (base : ℚ) (enabled : List KeyConfig) (i : ℕ) :
    (staggerSends base enabled)[i]? = enabled[i]?.map (fun c =>
      { hotkey := c.hotkey,
        postTime := base + 1 / 50 + sendDuration * i,
        sendTime := base + 1 / 50 + sendDuration * i + sendDuration,
        nextDue := base + 1 / 50 + sendDuration * i + sendDuration
          + c.interval }) := by
  cases enabled with
  | nil => simp [staggerSends, staggerLoop]
  | cons c rest =>
    have hstart : max base (base + 1 * (1 / 50 : ℚ)) = base + 1 * (1 / 50 : ℚ) :=
      max_eq_right (by linarith)
    cases i with
    | zero =>
      simp only [staggerSends, staggerLoop, List.getElem?_cons_zero, Option.map_some']
      rw [hstart, Option.some_inj, SendEvent.mk.injEq]
      norm_num
    | succ jp =>
      have hinv : base + (1 + 1) * (1 / 50 : ℚ)
          ≤ base + 1 * (1 / 50 : ℚ) + sendDuration := by
        rw [sendDuration_eq]
        linarith
      simp only [staggerSends, staggerLoop, List.getElem?_cons_succ]
      rw [hstart, staggerLoop_getElem rest base (base + 1 * (1 / 50 : ℚ) + sendDuration)
        (1 + 1) jp hinv]
      cases hc : rest[jp]? with
      | none => rfl
      | some cp =>
        show some _ = some _
        rw [Option.some_inj, SendEvent.mk.injEq]
        push_cast
        rw [sendDuration_eq]
        refine ⟨rfl, by ring, by ring, by ring⟩

/-- Counterexample to C2 as stated: with two enabled keys the second key is
not sent at approximately `settleEnd + 2 * 20 ms`.  Its injector call starts
at `settleEnd + 20 ms + sendDuration = settleEnd + 420 ms` (the first key's
three 200 ms-spaced attempts occupy the loop first), `380 ms` after the
claimed moment — far beyond the spec's own ±50 ms tolerance. -/
theorem scheduler_startup_stagger_counterexample :
    ((runStartup [(5, "W")] "W"
        [{ hotkey := "1", enabled := true, interval := 3, description := "d" },
         { hotkey := "2", enabled := true, interval := 3, description := "e" }]
        0).sends[1]?.map SendEvent.postTime
      = some (0 + 2 + 1 / 50 + sendDuration * 1)) ∧
    (0 + 2 + 1 / 50 + sendDuration * 1) - (0 + 2 + 2 * (1 / 50 : ℚ)) = 19 / 50 ∧
    ¬((19 : ℚ) / 50 ≤ 1 / 20) := by
  refine ⟨?_, by rw [sendDuration_eq]; norm_num, by norm_num⟩
  have hsends : (runStartup [(5, "W")] "W"
      [{ hotkey := "1", enabled := true, interval := 3, description := "d" },
       { hotkey := "2", enabled := true, interval := 3, description := "e" }]
      0).sends = staggerSends (0 + 2) (enabledConfigs
        [{ hotkey := "1", enabled := true, interval := 3, description := "d" },
         { hotkey := "2", enabled := true, interval := 3, description := "e" }]) := by
    have hres : get_hwnd_by_title [(5, "W")] "W" = some 5 := rfl
    have hne : enabledConfigs
        [{ hotkey := "1", enabled := true, interval := 3, description := "d" },
         { hotkey := "2", enabled := true, interval := 3, description := "e" }]
        ≠ [] := by decide
    simp [runStartup, hres, hne]
  rw [hsends, staggerSends_getElem]
  have henabled : (enabledConfigs
      [{ hotkey := "1", enabled := true, interval := 3, description := "d" },
       { hotkey := "2", enabled := true, interval := 3, description := "e" }])[1]?
      = some { hotkey := "2", enabled := true, interval := 3, description := "e" } := by
    decide
  rw [henabled]
  simp

/-- C2 (amended): with a resolved (non-zero) window handle and at least one
enabled config, the run settles for 2 s before any input, then sends each
enabled key exactly once (one injector call of three 200 ms-spaced posts) in
configuration order; the `i`-th (0-based) call starts at
`settleEnd + 20 ms + i * sendDuration` — no earlier than its desired stagger
instant `settleEnd + (i+1) * 20 ms`, but pushed back by the injector span of
each predecessor — and the key's next-due time is the recorded send moment
(call return) plus its interval. -/
theorem scheduler_startup_stagger (windows : List (ℕ × String)) (title : String)
    (cfgs : List KeyConfig) (t0 : ℚ) (hw : ℕ) (i : ℕ)
    (hres : get_hwnd_by_title windows title = some hw) (hnz : hw ≠ 0)
    (hi : i < (enabledConfigs cfgs).length) :
    (runStartup windows title cfgs t0).sends.length = (enabledConfigs cfgs).length ∧
    (runStartup windows title cfgs t0).sends[i]? =
      some { hotkey := ((enabledConfigs cfgs).get ⟨i, hi⟩).hotkey
             postTime := t0 + 2 + 1 / 50 + sendDuration * i
             sendTime := t0 + 2 + 1 / 50 + sendDuration * i + sendDuration
             nextDue := t0 + 2 + 1 / 50 + sendDuration * i + sendDuration
               + ((enabledConfigs cfgs).get ⟨i, hi⟩).interval } ∧
    t0 + 2 < t0 + 2 + 1 / 50 + sendDuration * i ∧
    t0 + 2 + ((i : ℚ) + 1) * (1 / 50) ≤ t0 + 2 + 1 / 50 + sendDuration * i := by
  have hne : enabledConfigs cfgs ≠ [] := by
    intro h0
    rw [h0] at hi
    simp at hi
  have hsends : (runStartup windows title cfgs t0).sends
      = staggerSends (t0 + 2) (enabledConfigs cfgs) := by
    simp [runStartup, hres, hnz, hne]
  have hlen : (staggerSends (t0 + 2) (enabledConfigs cfgs)).length
      = (enabledConfigs cfgs).length := by
    have hmap := staggerSends_getElem (t0 + 2) (enabledConfigs cfgs)
    by_contra hcon
    rcases Nat.lt_or_ge (staggerSends (t0 + 2) (enabledConfigs cfgs)).length
        (enabledConfigs cfgs).length with hlt | hge
    · have h1 := hmap (staggerSends (t0 + 2) (enabledConfigs cfgs)).length
      rw [List.getElem?_eq_none (le_refl _)] at h1
      rw [List.getElem?_eq_getElem hlt] at h1
      exact Option.noConfusion h1.symm
    · have hlt2 : (enabledConfigs cfgs).length
          < (staggerSends (t0 + 2) (enabledConfigs cfgs)).length :=
        lt_of_le_of_ne hge (fun h => hcon h.symm)
      have h1 := hmap (enabledConfigs cfgs).length
      rw [List.getElem?_eq_getElem hlt2, List.getElem?_eq_none (le_refl _)] at h1
      exact Option.noConfusion h1
  refine ⟨by rw [hsends]; exact hlen, ?_, ?_, ?_⟩
  · rw [hsends, staggerSends_getElem]
    rw [List.getElem?_eq_getElem hi]
    simp [List.get_eq_getElem]
  · have hd : (0 : ℚ) ≤ sendDuration * i := by
      rw [sendDuration_eq]
      positivity
    linarith
  · have hstep : ((i : ℚ)) * (1 / 50) ≤ sendDuration * i := by
      rw [sendDuration_eq]
      have : (0 : ℚ) ≤ (i : ℚ) := Nat.cast_nonneg i
      nlinarith
    linarith

/-- Witness for the amended C2: a single enabled config with key `"1"` and
interval 3 against the resolved window handle 5, run started at `t0 = 0`. -/
theorem scheduler_startup_stagger_witness :
    (runStartup [(5, "W")] "W"
        [{ hotkey := "1", enabled := true, interval := 3, description := "d" }]
        0).sends.length
      = (enabledConfigs
          [{ hotkey := "1", enabled := true, interval := 3, description := "d" }]).length ∧
    (runStartup [(5, "W")] "W"
        [{ hotkey := "1", enabled := true, interval := 3, description := "d" }]
        0).sends[0]? =
      some { hotkey := ((enabledConfigs
               [{ hotkey := "1", enabled := true, interval := 3,
                  description := "d" }]).get ⟨0, by decide⟩).hotkey
             postTime := 0 + 2 + 1 / 50 + sendDuration * 0
             sendTime := 0 + 2 + 1 / 50 + sendDuration * 0 + sendDuration
             nextDue := 0 + 2 + 1 / 50 + sendDuration * 0 + sendDuration
               + ((enabledConfigs
                   [{ hotkey := "1", enabled := true, interval := 3,
                      description := "d" }]).get ⟨0, by decide⟩).interval } ∧
    (0 : ℚ) + 2 < 0 + 2 + 1 / 50 + sendDuration * 0 ∧
    (0 : ℚ) + 2 + (((0 : ℕ) : ℚ) + 1) * (1 / 50) ≤ 0 + 2 + 1 / 50 + sendDuration * 0 :=
  scheduler_startup_stagger [(5, "W")] "W"
    [{ hotkey := "1", enabled := true, interval := 3, description := "d" }]
    0 5 0 rfl (by decide) (by decide)

/-- The rectangle that survives `clampRect` lies inside the image and is
non-empty. -/
theorem clampRect_sound (imgW imgH x0 y0 w0 h0 : ℤ) (r : CutRect)
    (h : clampRect imgW imgH x0 y0 w0 h0 = some r) :
    0 ≤ r.x ∧ 0 ≤ r.y ∧ r.x + r.w ≤ imgW ∧ r.y + r.h ≤ imgH ∧
      0 < r.w ∧ 0 < r.h := by
  unfold clampRect at h
  by_cases hempty :
      max 0 (min imgW (max 0 x0 + w0) - max 0 x0) ≤ 0 ∨
      max 0 (min imgH (max 0 y0 + h0) - max 0 y0) ≤ 0
  · simp only [hempty, if_true] at h
    exact absurd h (by simp)
  · simp only [hempty, if_false] at h
    push_neg at hempty
    obtain ⟨hw, hh⟩ := hempty
    have hr := (Option.some_injective _ h)
    subst hr
    refine ⟨le_max_left _ _, le_max_left _ _, ?_, ?_, hw, hh⟩
    · simp only
      omega
    · simp only
      omega

/-- The rectangle that survives `cutOne` lies inside the image and is
non-empty. -/
theorem cutOne_sound (imgW imgH : ℤ) (ref? : Option (ℤ × ℤ))
    (area : SkillArea) (r : CutRect)
    (h : cutOne imgW imgH ref? area = some r) :
    0 ≤ r.x ∧ 0 ≤ r.y ∧ r.x + r.w ≤ imgW ∧ r.y + r.h ≤ imgH ∧
      0 < r.w ∧ 0 < r.h := by
  unfold cutOne at h
  split at h
  · split at h
    · exact clampRect_sound _ _ _ _ _ _ r h
    · exact clampRect_sound _ _ _ _ _ _ r h
  · exact clampRect_sound _ _ _ _ _ _ r h

/-- Every rectangle in the accumulator of the extraction fold is sound. -/
theorem cutSkillAreas_fold_sound (imgW imgH : ℤ) (ref? : Option (ℤ × ℤ))
    (areas : List SkillArea) (out : List (ℕ × CutRect))
    (hout : ∀ q ∈ out, 0 ≤ q.2.x ∧ 0 ≤ q.2.y ∧ q.2.x + q.2.w ≤ imgW ∧
      q.2.y + q.2.h ≤ imgH ∧ 0 < q.2.w ∧ 0 < q.2.h) :
    ∀ q ∈ areas.foldl (cutStep imgW imgH ref?) out,
      0 ≤ q.2.x ∧ 0 ≤ q.2.y ∧ q.2.x + q.2.w ≤ imgW ∧ q.2.y + q.2.h ≤ imgH ∧
        0 < q.2.w ∧ 0 < q.2.h := by
  induction areas generalizing out with
  | nil => exact hout
  | cons area rest ih =>
    intro q hq
    refine ih _ ?_ q hq
    intro q' hq'
    cases hcut : cutOne imgW imgH ref? area with
    | none =>
      simp only [cutStep, hcut] at hq'
      exact hout q' hq'
    | some r =>
      simp only [cutStep, hcut] at hq'
      rcases mem_dictSet out area.index r q' hq' with hmem | heq
      · exact hout q' hmem
      · have hr := cutOne_sound imgW imgH ref? area r hcut
        rw [heq]
        exact hr

/-- C7: every extraction rectangle produced by `_cut_skill_areas_from_image`
satisfies `0 ≤ x`, `0 ≤ y`, `x + w ≤ image width`, `y + h ≤ image height`
and has positive width and height — a region whose clamped area is empty is
skipped and produces no rectangle, so extraction never reads out of
bounds. -/
theorem cut_skill_areas_in_bounds (imgW imgH : ℤ) (ref? : Option (ℤ × ℤ))
    (areas : List SkillArea) (i : ℕ) (r : CutRect)
    (hmem : (i, r) ∈ cutSkillAreas imgW imgH ref? areas) :
    0 ≤ r.x ∧ 0 ≤ r.y ∧ r.x + r.w ≤ imgW ∧ r.y + r.h ≤ imgH ∧
      0 < r.w ∧ 0 < r.h := by
  have := cutSkillAreas_fold_sound imgW imgH ref? (areas.take 6) []
    (by intro q hq; simp at hq) (i, r) hmem
  exact this

/-- Witness for C7: a region partially outside a 100×100 image is clamped to
a valid non-empty rectangle. -/
theorem cut_skill_areas_in_bounds_witness :
    0 ≤ ({ x := 90, y := 0, w := 10, h := 8 } : CutRect).x ∧
    0 ≤ ({ x := 90, y := 0, w := 10, h := 8 } : CutRect).y ∧
    ({ x := 90, y := 0, w := 10, h := 8 } : CutRect).x
      + ({ x := 90, y := 0, w := 10, h := 8 } : CutRect).w ≤ 100 ∧
    ({ x := 90, y := 0, w := 10, h := 8 } : CutRect).y
      + ({ x := 90, y := 0, w := 10, h := 8 } : CutRect).h ≤ 100 ∧
    0 < ({ x := 90, y := 0, w := 10, h := 8 } : CutRect).w ∧
    0 < ({ x := 90, y := 0, w := 10, h := 8 } : CutRect).h :=
  cut_skill_areas_in_bounds 100 100 none
    [{ index := 1, x := 90, y := -3, width := 25, height := 8 }]
    1 { x := 90, y := 0, w := 10, h := 8 } (by decide)

/-- The mean saturation of a uniform region of value `S` is `S`. -/
theorem meanSat_replicate (n : ℕ) (S : ℚ) :
    meanSat (List.replicate (n + 1) S) = some S := by
  rw [List.replicate_succ]
  show some ((S :: List.replicate n S).sum / (S :: List.replicate n S).length)
    = some S
  congr 1
  rw [List.sum_cons, List.sum_replicate, List.length_cons,
    List.length_replicate, nsmul_eq_mul]
  have hne : ((n : ℚ) + 1) ≠ 0 := by positivity
  push_cast
  field_simp
  ring

/-- For an enabled region with a resolvable key and a computed mean
saturation, the worker's decision is exactly a threshold test at 50. -/
theorem regionDecision_eq (cfg? : Option RegionCfgSnap) (fallback : Option String)
    (pix : List ℚ) (m : ℚ)
    (hen : (match cfg? with | some c => c.enabled | none => true) = true)
    (hkey : resolveHotkey cfg? fallback ≠ "")
    (hmean : meanSat pix = some m) :
    regionDecision cfg? fallback pix
      = if 50 ≤ m then some (resolveHotkey cfg? fallback) else none := by
  cases cfg? with
  | none =>
    simp [regionDecision, hmean, hkey]
  | some c =>
    have hc : c.enabled = true := by simpa using hen
    simp [regionDecision, hc, hmean, hkey]

/-- C1: for every region handled by the classify stage that is enabled and
has a resolvable key, the key is injected iff the region's mean HSV
saturation is at least the fixed threshold 50; in particular a synthetic
uniform region of saturation `S ∈ {0, 49, 50, 51, 255}` classifies as
inactive (no injection) exactly when `S < 50`. -/
theorem classify_inject_iff (cfg? : Option RegionCfgSnap)
    (fallback : Option String) (pix : List ℚ) (m : ℚ)
    (hen : (match cfg? with | some c => c.enabled | none => true) = true)
    (hkey : resolveHotkey cfg? fallback ≠ "")
    (hmean : meanSat pix = some m) :
    (regionDecision cfg? fallback pix
      = some (resolveHotkey cfg? fallback) ↔ 50 ≤ m) ∧
    (regionDecision cfg? fallback pix = none ↔ m < 50) ∧
    (∀ S : ℚ, S ∈ ([0, 49, 50, 51, 255] : List ℚ) → ∀ n : ℕ,
      (regionDecision cfg? fallback (List.replicate (n + 1) S) = none ↔ S < 50)) := by
  have hdec := regionDecision_eq cfg? fallback pix m hen hkey hmean
  refine ⟨?_, ?_, ?_⟩
  · rw [hdec]
    by_cases h : 50 ≤ m
    · rw [if_pos h]
      simp [h]
    · rw [if_neg h]
      simp [h]
  · rw [hdec]
    by_cases h : 50 ≤ m
    · rw [if_pos h]
      simp [not_lt.mpr h]
    · rw [if_neg h]
      simp [not_le.mp h]
  · intro S _ n
    rw [regionDecision_eq cfg? fallback _ S hen hkey (meanSat_replicate n S)]
    by_cases h : 50 ≤ S
    · rw [if_pos h]
      simp [not_lt.mpr h]
    · rw [if_neg h]
      simp [not_le.mp h]

/-- Witness for C1: an enabled row sending `"1"` over a one-pixel region of
saturation 60. -/
theorem classify_inject_iff_witness :
    (regionDecision (some { send_hotkey := "1", enabled := true }) none [60]
      = some (resolveHotkey (some { send_hotkey := "1", enabled := true }) none)
      ↔ (50 : ℚ) ≤ 60) ∧
    (regionDecision (some { send_hotkey := "1", enabled := true }) none [60]
      = none ↔ (60 : ℚ) < 50) ∧
    (∀ S : ℚ, S ∈ ([0, 49, 50, 51, 255] : List ℚ) → ∀ n : ℕ,
      (regionDecision (some { send_hotkey := "1", enabled := true }) none
        (List.replicate (n + 1) S) = none ↔ S < 50)) :=
  classify_inject_iff (some { send_hotkey := "1", enabled := true }) none
    [60] 60 rfl (by decide) (by simp [meanSat])

/-- C9: firing a registered per-key reset hotkey while the Timed-Key tab is
open forwards a reschedule request storing due time `now + 1` for the bound
key (so it re-fires about one second later), and is a no-op when the tab is
absent. -/
theorem reset_hotkey_forwards_one_second (ctx : ResetContext) (now : ℚ)
    (hotkey : String) (hk : pyStrip hotkey ≠ "") :
    (ctx.timedTabOpen = true →
      dictGet? (reset_single_skill_from_hotkey ctx now hotkey).overrides
        (pyStrip hotkey) = some (now + 1)) ∧
    (ctx.timedTabOpen = false →
      reset_single_skill_from_hotkey ctx now hotkey = ctx) := by
  constructor
  · intro hopen
    simp only [reset_single_skill_from_hotkey, hopen]
    simp [trigger_reset_by_hotkey, request_next_due_in, hk,
      clamp_nonpos_eq_max, dictGet?_dictSet_self]
  · intro hclosed
    simp [reset_single_skill_from_hotkey, hclosed]

/-- Witness for C9: tab open, empty pending dict, key `"1"` at `now = 0`. -/
theorem reset_hotkey_forwards_one_second_witness :
    (ResetContext.timedTabOpen { timedTabOpen := true, overrides := [] } = true →
      dictGet? (reset_single_skill_from_hotkey
          { timedTabOpen := true, overrides := [] } 0 "1").overrides
        (pyStrip "1") = some (0 + 1)) ∧
    (ResetContext.timedTabOpen { timedTabOpen := true, overrides := [] } = false →
      reset_single_skill_from_hotkey
          { timedTabOpen := true, overrides := [] } 0 "1"
        = { timedTabOpen := true, overrides := [] }) :=
  reset_hotkey_forwards_one_second
    { timedTabOpen := true, overrides := [] } 0 "1" (by decide)

end DiabloHelper
